import Mathlib

/-!
Verification of the freshness-detection app (src/app.py): a shallow
embedding of its two original components — the detection interpreter
(`detect_and_classify`) and the ledger upsert (`update_fresh_count`) —
together with theorems settling the specification's claims about them.

The Excel sheet is modelled as the list of product rows below the fixed
header; `datetime.now()` is modelled by passing the formatted timestamp
string as an explicit parameter; YOLO inference is a black box, so an
image is modelled by the model's raw output for it (`Option` for the
decode-failure case); confidences are rationals.
-/

namespace Freshness

/-- The value stored in the "Expected Life Span" cell: an integer number
of days, or one of the two sentinel strings the code writes. -/
inductive Lifespan where
  | days (n : Nat)
  | na
  | unknown
deriving DecidableEq, Repr

/-- One product row of the Excel sheet (the header row is implicit):
columns "S No", "Product", "Fresh Count", "Last Detected Time",
"Expected Life Span". -/
structure Row where
  sNo : Nat
  product : String
  freshCount : Nat
  lastDetectedTime : String
  lifespan : Lifespan
deriving DecidableEq, Repr

/-- Embeds `label_encoder` from app.py line 16. -/
def label_encoder : List String :=
  ["apple_fresh", "apple_stale", "onion_fresh", "onion_stale",
   "carrot_fresh", "carrot_stale", "tomato_fresh", "tomato_stale"]

/-- Embeds `expected_life_span` from app.py line 20. -/
def expected_life_span : List (String × Nat) :=
  [("apple", 7), ("onion", 10), ("carrot", 5), ("tomato", 3)]

/-- Embeds `CONFIDENCE_THRESHOLD` from app.py line 28. -/
def CONFIDENCE_THRESHOLD : ℚ := 1/2

/-- Line 46 of app.py:
`lifespan = "N/A" if not is_fresh else expected_life_span.get(product, "Unknown")`. -/
def computeLifespan (product : String) (is_fresh : Bool) : Lifespan :=
  if !is_fresh then Lifespan.na
  else
    match List.lookup product expected_life_span with
    | some n => Lifespan.days n
    | none => Lifespan.unknown

/-- The scan of lines 50-57 of app.py: find the first row whose "Product"
column equals `product`, and if found update its count, timestamp and
lifespan cells in place (`break` after the first match).  Returns `none`
when no row matches (`product_found` stays false). -/
def updateRows (product : String) (is_fresh : Bool) (now : String)
    (ls : Lifespan) : List Row → Option (List Row)
  | [] => none
  | r :: rs =>
    if r.product = product then
      some ({ r with
              freshCount := if is_fresh then r.freshCount + 1 else r.freshCount,
              lastDetectedTime := now,
              lifespan := ls } :: rs)
    else
      (updateRows product is_fresh now ls rs).map (r :: ·)

/-- Embeds `update_fresh_count` (app.py lines 45-63).  `sheet` is the list
of product rows; `now` is the formatted `datetime.now()` string of this
call.  On a miss a new row is appended whose "S No" cell is
`sheet.max_row` at that moment, i.e. 1 (the header) plus the number of
product rows. -/
def update_fresh_count (sheet : List Row) (product : String)
    (is_fresh : Bool) (now : String) : List Row :=
  match updateRows product is_fresh now (computeLifespan product is_fresh) sheet with
  | some rows => rows
  | none =>
      sheet ++ [{ sNo := sheet.length + 1
                  product := product
                  freshCount := if is_fresh then 1 else 0
                  lastDetectedTime := now
                  lifespan := computeLifespan product is_fresh }]

/-- One detected object of the model's raw output: confidence score and
class index (the bounding box plays no part in the logic and is
omitted). -/
structure Detection where
  conf : ℚ
  cls : Nat
deriving DecidableEq, Repr

/-- One entry of the `predictions` list built at app.py lines 97-101. -/
structure PredRecord where
  Product : String
  Freshness : String
  Confidence : String
deriving DecidableEq, Repr

/-- Splitting a character list at every occurrence of a separator
character. -/
def split_char (sep : Char) : List Char → List (List Char)
  | [] => [[]]
  | c :: cs =>
    if c = sep then [] :: split_char sep cs
    else
      match split_char sep cs with
      | [] => [[c]]
      | w :: ws => (c :: w) :: ws

/-- Python `str.split` with a one-character separator, as used by
`predicted_label.split('_')` at app.py line 90. -/
def py_split (s : String) (sep : Char) : List String :=
  (split_char sep s.data).map String.mk

/-- Python `str.capitalize`: first character uppercased, the rest
lowered. -/
def py_capitalize (s : String) : String :=
  match s.data with
  | [] => ""
  | c :: cs => String.mk (c.toUpper :: cs.map Char.toLower)

/-- The format specifier `:.2f` applied to a confidence in [0, 1]: the
value scaled by 100 and rounded, printed with two digits after the
point. -/
def format2 (q : ℚ) : String :=
  toString (round (q * 100) / 100) ++ "." ++
    (if round (q * 100) % 100 < 10 then "0" else "") ++ toString (round (q * 100) % 100)

/-- Lines 88-90 of app.py: class index to label via `label_encoder`, then
`predicted_label.split('_')` into product and freshness. -/
def interpret_one (d : Detection) : String × String :=
  ((py_split (label_encoder.getD d.cls "") '_').getD 0 "",
   (py_split (label_encoder.getD d.cls "") '_').getD 1 "")

/-- The record appended to `predictions` for one kept detection
(app.py lines 97-101). -/
def mkRec (d : Detection) : PredRecord :=
  { Product := py_capitalize (interpret_one d).1
    Freshness := py_capitalize (interpret_one d).2
    Confidence := format2 d.conf }

/-- The loop of app.py lines 83-101 over the detections of one image:
skip a detection below the threshold, otherwise upsert the ledger for it
and append its record.  Returns the final sheet and the predictions in
detection order. -/
def run_detections (now : String) :
    List Detection → List Row → List Row × List PredRecord
  | [], sheet => (sheet, [])
  | d :: ds, sheet =>
    if d.conf < CONFIDENCE_THRESHOLD then
      run_detections now ds sheet
    else
      ((run_detections now ds
          (update_fresh_count sheet (interpret_one d).1
            ((interpret_one d).2 == "fresh") now)).1,
       mkRec d ::
        (run_detections now ds
          (update_fresh_count sheet (interpret_one d).1
            ((interpret_one d).2 == "fresh") now)).2)

/-- The outcome of `detect_and_classify`: the returned predictions
(`none` for the decode-failure early return), the sheet afterwards, and
the error messages shown. -/
structure DCResult where
  predictions : Option (List PredRecord)
  sheet : List Row
  errors : List String
deriving DecidableEq, Repr

/-- Embeds `detect_and_classify` (app.py lines 66-103).  The image
argument is the model's raw output for the decoded image, or `none` when
`cv2.imread` failed to decode it. -/
def detect_and_classify (image : Option (List Detection)) (sheet : List Row)
    (now : String) : DCResult :=
  match image with
  | none =>
      { predictions := none, sheet := sheet,
        errors := ["Error: Image not found."] }
  | some ds =>
      { predictions := some (run_detections now ds sheet).2,
        sheet := (run_detections now ds sheet).1,
        errors := [] }

/-- The per-record upsert arguments the loop produces, as a pure function
of the detections alone. -/
def upsert_calls (ds : List Detection) : List (String × Bool) :=
  (ds.filter (fun d => decide (CONFIDENCE_THRESHOLD ≤ d.conf))).map
    (fun d => ((interpret_one d).1, (interpret_one d).2 == "fresh"))

/-- The specification's fixed class-index-to-(product, freshness)
table. -/
def label_table : List (String × String) :=
  [("apple", "fresh"), ("apple", "stale"), ("onion", "fresh"),
   ("onion", "stale"), ("carrot", "fresh"), ("carrot", "stale"),
   ("tomato", "fresh"), ("tomato", "stale")]

/-- The "Fresh Count" cell of the first row matching the product, read
the way the scan reads it; 0 when the product has no row yet. -/
def freshCountOf : List Row → String → Nat
  | [], _ => 0
  | r :: rs, p => if r.product = p then r.freshCount else freshCountOf rs p

/-- The "Last Detected Time" cell of the first row matching the product;
`none` when the product has no row yet. -/
def lastTimeOf : List Row → String → Option String
  | [], _ => none
  | r :: rs, p => if r.product = p then some r.lastDetectedTime else lastTimeOf rs p

/-- Default row used as the out-of-range value of positional reads. -/
def dummyRow : Row :=
  { sNo := 0, product := "", freshCount := 0, lastDetectedTime := "",
    lifespan := Lifespan.na }

/-- The arguments of one `update_fresh_count` call: product, freshness
flag, and the `datetime.now()` string of the call. -/
structure UpsertOp where
  product : String
  is_fresh : Bool
  now : String

/-- A sequence of upsert calls applied in order, as the app performs them
across detections and uploads. -/
def applyOps (ops : List UpsertOp) (sheet : List Row) : List Row :=
  ops.foldl (fun s op => update_fresh_count s op.product op.is_fresh op.now) sheet

/-- The sequence-number invariant: the "S No" cells read 1, 2, ..., n in
row order. -/
def SeqOK (sheet : List Row) : Prop :=
  sheet.map Row.sNo = List.range' 1 sheet.length

/-- `computeLifespan` spelled out with `Option.elim`. -/
theorem computeLifespan_eq (p : String) (f : Bool) :
    computeLifespan p f =
      (if f then
        (List.lookup p expected_life_span).elim Lifespan.unknown Lifespan.days
       else Lifespan.na) := by
  cases f with
  | false => rfl
  | true =>
      simp only [computeLifespan, Bool.not_true, Bool.false_eq_true, if_false, if_true]
      cases List.lookup p expected_life_span <;> rfl

/-- The scan misses when no row carries the product. -/
theorem updateRows_none (p : String) (f : Bool) (now : String)
    (ls : Lifespan) (sheet : List Row) (habs : ∀ r ∈ sheet, r.product ≠ p) :
    updateRows p f now ls sheet = none := by
  induction sheet with
  | nil => rfl
  | cons a rs ih =>
      have ha : a.product ≠ p := habs a (List.mem_cons_self a rs)
      rw [updateRows, if_neg ha, ih (fun r hr => habs r (List.mem_cons_of_mem a hr))]
      rfl

/-- The scan stops at the first matching row and rewrites it in place. -/
theorem updateRows_first (p : String) (f : Bool) (now : String)
    (ls : Lifespan) (l1 l2 : List Row) (r : Row)
    (hfirst : ∀ r' ∈ l1, r'.product ≠ p) (hmatch : r.product = p) :
    updateRows p f now ls (l1 ++ r :: l2) =
      some (l1 ++ { r with
                    freshCount := if f then r.freshCount + 1 else r.freshCount,
                    lastDetectedTime := now,
                    lifespan := ls } :: l2) := by
  induction l1 with
  | nil => simp [updateRows, if_pos hmatch]
  | cons a l1 ih =>
      have ha : a.product ≠ p := hfirst a (List.mem_cons_self a l1)
      have ih' := ih (fun r' hr' => hfirst r' (List.mem_cons_of_mem a hr'))
      simp [List.cons_append, updateRows, if_neg ha, ih']

/-- The upsert on a sheet with no matching row is an append. -/
theorem update_fresh_count_absent (sheet : List Row) (p : String)
    (f : Bool) (now : String) (habs : ∀ r ∈ sheet, r.product ≠ p) :
    update_fresh_count sheet p f now =
      sheet ++ [{ sNo := sheet.length + 1, product := p,
                  freshCount := if f then 1 else 0,
                  lastDetectedTime := now,
                  lifespan := computeLifespan p f }] := by
  unfold update_fresh_count
  rw [updateRows_none p f now _ sheet habs]

/-- The upsert on a sheet whose first matching row is `r` updates `r` in
place. -/
theorem update_fresh_count_found (l1 l2 : List Row) (r : Row) (p : String)
    (f : Bool) (now : String)
    (hfirst : ∀ r' ∈ l1, r'.product ≠ p) (hmatch : r.product = p) :
    update_fresh_count (l1 ++ r :: l2) p f now =
      l1 ++ { r with
              freshCount := if f then r.freshCount + 1 else r.freshCount,
              lastDetectedTime := now,
              lifespan := computeLifespan p f } :: l2 := by
  unfold update_fresh_count
  rw [updateRows_first p f now _ l1 l2 r hfirst hmatch]

/-- Any sheet containing the product splits at the first matching row. -/
theorem exists_first_split (sheet : List Row) (p : String)
    (hp : ∃ r ∈ sheet, r.product = p) :
    ∃ l1 r l2, sheet = l1 ++ r :: l2 ∧ r.product = p ∧
      ∀ r' ∈ l1, r'.product ≠ p := by
  induction sheet with
  | nil => simp at hp
  | cons a rs ih =>
      by_cases ha : a.product = p
      · exact ⟨[], a, rs, rfl, ha, by simp⟩
      · have hp' : ∃ r ∈ rs, r.product = p := by
          obtain ⟨r, hr, hrp⟩ := hp
          rcases List.mem_cons.mp hr with h | h
          · exact absurd (h ▸ hrp) ha
          · exact ⟨r, h, hrp⟩
        obtain ⟨l1, r, l2, hsplit, hrp, hfirst⟩ := ih hp'
        refine ⟨a :: l1, r, l2, by rw [hsplit, List.cons_append], hrp, ?_⟩
        intro r' hr'
        rcases List.mem_cons.mp hr' with h | h
        · exact h ▸ ha
        · exact hfirst r' h

/-- C1: an upsert on a product that already has a row updates the first
matching row in place — freshCount goes up by one exactly when `is_fresh`,
the timestamp is overwritten with the current time, and the lifespan cell
is overwritten with "N/A" when stale, the table entry when fresh and
present, "Unknown" when fresh and absent — while every other row is kept
unchanged, and the call is total. -/
theorem C1_upsert_existing_row (l1 l2 : List Row) (r : Row) (p : String)
    (f : Bool) (now : String)
    (hfirst : ∀ r' ∈ l1, r'.product ≠ p) (hmatch : r.product = p) :
    update_fresh_count (l1 ++ r :: l2) p f now =
      l1 ++ { r with
              freshCount := if f then r.freshCount + 1 else r.freshCount,
              lastDetectedTime := now,
              lifespan :=
                if f then
                  (List.lookup p expected_life_span).elim Lifespan.unknown Lifespan.days
                else Lifespan.na } :: l2 := by
  rw [update_fresh_count_found l1 l2 r p f now hfirst hmatch, computeLifespan_eq]

/-- C1 witness. -/
theorem C1_upsert_existing_row_witness :
    update_fresh_count
        [{ sNo := 1, product := "onion", freshCount := 4,
           lastDetectedTime := "t0", lifespan := Lifespan.na },
         { sNo := 2, product := "apple", freshCount := 2,
           lastDetectedTime := "t0", lifespan := Lifespan.na }]
        "apple" true "t1" =
      [{ sNo := 1, product := "onion", freshCount := 4,
         lastDetectedTime := "t0", lifespan := Lifespan.na },
       { sNo := 2, product := "apple", freshCount := 3,
         lastDetectedTime := "t1", lifespan := Lifespan.days 7 }] := by
  have h := C1_upsert_existing_row
    [{ sNo := 1, product := "onion", freshCount := 4,
       lastDetectedTime := "t0", lifespan := Lifespan.na }] []
    { sNo := 2, product := "apple", freshCount := 2,
      lastDetectedTime := "t0", lifespan := Lifespan.na }
    "apple" true "t1" (by decide) (by decide)
  exact h.trans (by decide)

/-- C2: an upsert on a product with no matching row appends exactly one
new row — freshCount 1 when fresh, 0 when stale, the current timestamp,
and the lifespan cell by the same rule — leaving all existing rows
unchanged. -/
theorem C2_upsert_new_row (sheet : List Row) (p : String) (f : Bool)
    (now : String) (habs : ∀ r ∈ sheet, r.product ≠ p) :
    update_fresh_count sheet p f now =
      sheet ++ [{ sNo := sheet.length + 1, product := p,
                  freshCount := if f then 1 else 0,
                  lastDetectedTime := now,
                  lifespan :=
                    if f then
                      (List.lookup p expected_life_span).elim Lifespan.unknown Lifespan.days
                    else Lifespan.na }] := by
  rw [update_fresh_count_absent sheet p f now habs, computeLifespan_eq]

/-- C2 witness. -/
theorem C2_upsert_new_row_witness :
    update_fresh_count
        [{ sNo := 1, product := "onion", freshCount := 4,
           lastDetectedTime := "t0", lifespan := Lifespan.na }]
        "mango" true "t1" =
      [{ sNo := 1, product := "onion", freshCount := 4,
         lastDetectedTime := "t0", lifespan := Lifespan.na },
       { sNo := 2, product := "mango", freshCount := 1,
         lastDetectedTime := "t1", lifespan := Lifespan.unknown }] := by
  have h := C2_upsert_new_row
    [{ sNo := 1, product := "onion", freshCount := 4,
       lastDetectedTime := "t0", lifespan := Lifespan.na }]
    "mango" true "t1" (by decide)
  exact h.trans (by decide)

/-- C3: a detection below the confidence threshold contributes nothing —
no record and no ledger update — while a detection at or above the
threshold is kept, its record heading the emitted list. -/
theorem C3_confidence_filter (now : String) (d : Detection)
    (ds : List Detection) (sheet : List Row) :
    (d.conf < CONFIDENCE_THRESHOLD →
      run_detections now (d :: ds) sheet = run_detections now ds sheet) ∧
    (CONFIDENCE_THRESHOLD ≤ d.conf →
      ∃ rest, (run_detections now (d :: ds) sheet).2 = mkRec d :: rest) := by
  constructor
  · intro h
    rw [run_detections, if_pos h]
  · intro h
    exact ⟨_, by rw [run_detections, if_neg (not_lt.mpr h)]⟩

/-- C3 witness. -/
theorem C3_confidence_filter_witness :
    run_detections "t" [{ conf := 3/10, cls := 0 }] [] =
      run_detections "t" [] [] :=
  (C3_confidence_filter "t" { conf := 3/10, cls := 0 } [] []).1
    (by norm_num [CONFIDENCE_THRESHOLD])

/-- C8: when the image cannot be decoded the whole operation fails: no
records are produced, the sheet is returned exactly as it was, and the
error is reported. -/
theorem C8_decode_failure_aborts (sheet : List Row) (now : String) :
    detect_and_classify none sheet now =
      { predictions := none, sheet := sheet,
        errors := ["Error: Image not found."] } := rfl

/-- C9: on a decodable image the interpreter's only effect on the ledger
is the per-record upsert calls: the final sheet is the fold of
`update_fresh_count` over the kept records' arguments, and the emitted
records are a pure function of the detections alone. -/
theorem C9_effects_factor_through_upserts (now : String)
    (ds : List Detection) (sheet : List Row) :
    (run_detections now ds sheet).1 =
      (upsert_calls ds).foldl (fun s c => update_fresh_count s c.1 c.2 now) sheet ∧
    (run_detections now ds sheet).2 =
      (ds.filter (fun d => decide (CONFIDENCE_THRESHOLD ≤ d.conf))).map mkRec := by
  induction ds generalizing sheet with
  | nil => exact ⟨rfl, rfl⟩
  | cons d ds ih =>
      by_cases h : d.conf < CONFIDENCE_THRESHOLD
      · have hq : decide (CONFIDENCE_THRESHOLD ≤ d.conf) = false :=
          decide_eq_false (not_le.mpr h)
        constructor
        · rw [run_detections, if_pos h, (ih sheet).1, upsert_calls, upsert_calls,
            List.filter_cons, hq]
          simp
        · rw [run_detections, if_pos h, (ih sheet).2, List.filter_cons, hq]
          simp
      · have hq : decide (CONFIDENCE_THRESHOLD ≤ d.conf) = true :=
          decide_eq_true (not_lt.mp h)
        have ih' := ih (update_fresh_count sheet (interpret_one d).1
          ((interpret_one d).2 == "fresh") now)
        constructor
        · rw [run_detections, if_neg h]
          rw [ih'.1, upsert_calls, upsert_calls, List.filter_cons, hq]
          simp
        · rw [run_detections, if_neg h]
          rw [ih'.2, List.filter_cons, hq]
          simp

/-- C4: for every class index in range, the interpreter's (product,
freshness) split of the mapped compound label on the delimiter matches
the fixed table exactly; in particular one detection of class index 0
("apple_fresh") at confidence 0.9 yields exactly the record
(Apple, Fresh, "0.90") and an upsert for "apple" with is_fresh true,
giving that row lifespan 7. -/
theorem C4_label_table_mapping (d : Detection) (h : d.cls < 8) :
    interpret_one d = label_table.getD d.cls ("", "") ∧
    detect_and_classify (some [{ conf := 9/10, cls := 0 }]) []
        "2024-01-01 12:00:00" =
      { predictions := some [{ Product := "Apple", Freshness := "Fresh",
                               Confidence := "0.90" }],
        sheet := [{ sNo := 1, product := "apple", freshCount := 1,
                    lastDetectedTime := "2024-01-01 12:00:00",
                    lifespan := Lifespan.days 7 }],
        errors := [] } := by
  constructor
  · obtain ⟨c, i⟩ := d
    have h' : i < 8 := h
    interval_cases i <;> rfl
  · have hconf :
        ¬ (({ conf := 9/10, cls := 0 } : Detection).conf < CONFIDENCE_THRESHOLD) := by
      show ¬ ((9:ℚ)/10 < CONFIDENCE_THRESHOLD)
      norm_num [CONFIDENCE_THRESHOLD]
    have hfmt : format2 ((9:ℚ)/10) = "0.90" := by
      have hr : round ((9:ℚ)/10 * 100) = 90 := by norm_num [round_eq]
      simp only [format2, hr]
      decide
    have hfmt' : format2 (({ conf := 9/10, cls := 0 } : Detection).conf) = "0.90" := hfmt
    simp only [detect_and_classify, run_detections]
    rw [if_neg hconf]
    simp only [run_detections, mkRec, hfmt']
    decide

/-- C4 witness. -/
theorem C4_label_table_mapping_witness :
    interpret_one { conf := 9/10, cls := 0 } = ("apple", "fresh") :=
  ((C4_label_table_mapping { conf := 9/10, cls := 0 } (by decide)).1).trans (by decide)

/-- `freshCountOf` reads the first matching row. -/
theorem freshCountOf_first (l1 l2 : List Row) (r : Row) (p : String)
    (hfirst : ∀ r' ∈ l1, r'.product ≠ p) (hmatch : r.product = p) :
    freshCountOf (l1 ++ r :: l2) p = r.freshCount := by
  induction l1 with
  | nil => simp [freshCountOf, hmatch]
  | cons a l1 ih =>
      rw [List.cons_append, freshCountOf,
        if_neg (hfirst a (List.mem_cons_self a l1))]
      exact ih (fun r' hr' => hfirst r' (List.mem_cons_of_mem a hr'))

/-- `freshCountOf` of a product with no row is 0. -/
theorem freshCountOf_absent (sheet : List Row) (p : String)
    (habs : ∀ r ∈ sheet, r.product ≠ p) : freshCountOf sheet p = 0 := by
  induction sheet with
  | nil => rfl
  | cons a rs ih =>
      rw [freshCountOf, if_neg (habs a (List.mem_cons_self a rs))]
      exact ih (fun r hr => habs r (List.mem_cons_of_mem a hr))

/-- `lastTimeOf` reads the first matching row. -/
theorem lastTimeOf_first (l1 l2 : List Row) (r : Row) (p : String)
    (hfirst : ∀ r' ∈ l1, r'.product ≠ p) (hmatch : r.product = p) :
    lastTimeOf (l1 ++ r :: l2) p = some r.lastDetectedTime := by
  induction l1 with
  | nil => simp [lastTimeOf, hmatch]
  | cons a l1 ih =>
      rw [List.cons_append, lastTimeOf,
        if_neg (hfirst a (List.mem_cons_self a l1))]
      exact ih (fun r' hr' => hfirst r' (List.mem_cons_of_mem a hr'))

/-- C6: upserting the same product twice with is_fresh true both times
raises its freshCount by exactly 2 over the value before the pass, and
leaves the second call's timestamp in the row. -/
theorem C6_double_fresh_upsert (sheet : List Row) (p : String)
    (now1 now2 : String) :
    freshCountOf
        (update_fresh_count (update_fresh_count sheet p true now1) p true now2) p =
      freshCountOf sheet p + 2 ∧
    lastTimeOf
        (update_fresh_count (update_fresh_count sheet p true now1) p true now2) p =
      some now2 := by
  by_cases hp : ∃ r ∈ sheet, r.product = p
  · obtain ⟨l1, r, l2, hsplit, hrp, hfirst⟩ := exists_first_split sheet p hp
    subst hsplit
    have hdouble :
        update_fresh_count (update_fresh_count (l1 ++ r :: l2) p true now1) p true now2 =
          l1 ++ { r with freshCount := r.freshCount + 2, lastDetectedTime := now2, lifespan := computeLifespan p true } :: l2 := by
      rw [update_fresh_count_found l1 l2 r p true now1 hfirst hrp]
      exact update_fresh_count_found l1 l2 _ p true now2 hfirst hrp
    refine ⟨?_, ?_⟩
    · rw [hdouble, freshCountOf_first l1 l2
        { r with freshCount := r.freshCount + 2, lastDetectedTime := now2, lifespan := computeLifespan p true } p hfirst hrp,
        freshCountOf_first l1 l2 r p hfirst hrp]
    · rw [hdouble, lastTimeOf_first l1 l2
        { r with freshCount := r.freshCount + 2, lastDetectedTime := now2, lifespan := computeLifespan p true } p hfirst hrp]
  · push_neg at hp
    have hnew :
        update_fresh_count (update_fresh_count sheet p true now1) p true now2 =
          sheet ++ { sNo := sheet.length + 1, product := p, freshCount := 2, lastDetectedTime := now2, lifespan := computeLifespan p true } :: [] := by
      rw [update_fresh_count_absent sheet p true now1 hp]
      exact update_fresh_count_found sheet [] _ p true now2 hp rfl
    refine ⟨?_, ?_⟩
    · rw [hnew, freshCountOf_first sheet []
        { sNo := sheet.length + 1, product := p, freshCount := 2, lastDetectedTime := now2, lifespan := computeLifespan p true } p hp rfl,
        freshCountOf_absent sheet p hp]
    · rw [hnew, lastTimeOf_first sheet []
        { sNo := sheet.length + 1, product := p, freshCount := 2, lastDetectedTime := now2, lifespan := computeLifespan p true } p hp rfl]

/-- Positional read of the row at the split point. -/
theorem getD_middle (l1 l2 : List Row) (r d : Row) :
    (l1 ++ r :: l2).getD l1.length d = r := by
  rw [List.getD_append_right l1 (r :: l2) d l1.length le_rfl, Nat.sub_self,
    List.getD_cons_zero]

/-- Positional reads away from the split point ignore the split row. -/
theorem getD_middle_ne (l1 l2 : List Row) (r r' d : Row) (i : Nat)
    (hne : i ≠ l1.length) :
    (l1 ++ r :: l2).getD i d = (l1 ++ r' :: l2).getD i d := by
  rcases lt_or_gt_of_ne hne with hlt | hgt
  · rw [List.getD_append l1 (r :: l2) d i hlt, List.getD_append l1 (r' :: l2) d i hlt]
  · obtain ⟨j, hj⟩ : ∃ j, i - l1.length = j + 1 := ⟨i - l1.length - 1, by omega⟩
    rw [List.getD_append_right l1 (r :: l2) d i (le_of_lt hgt),
      List.getD_append_right l1 (r' :: l2) d i (le_of_lt hgt), hj,
      List.getD_cons_succ, List.getD_cons_succ]

/-- The upsert's effect on the "Product" column: unchanged on a hit, the
product appended on a miss. -/
theorem products_update (sheet : List Row) (p : String) (f : Bool)
    (now : String) :
    (update_fresh_count sheet p f now).map Row.product =
      if p ∈ sheet.map Row.product then sheet.map Row.product
      else sheet.map Row.product ++ [p] := by
  by_cases hp : p ∈ sheet.map Row.product
  · rw [if_pos hp]
    obtain ⟨r0, hr0, hr0p⟩ := List.mem_map.mp hp
    obtain ⟨l1, r, l2, hsplit, hrp, hfirst⟩ :=
      exists_first_split sheet p ⟨r0, hr0, hr0p⟩
    subst hsplit
    rw [update_fresh_count_found l1 l2 r p f now hfirst hrp]
    simp
  · rw [if_neg hp]
    have habs : ∀ r ∈ sheet, r.product ≠ p :=
      fun r hr hrp => hp (List.mem_map.mpr ⟨r, hr, hrp⟩)
    rw [update_fresh_count_absent sheet p f now habs]
    simp

/-- The upsert's effect on the "S No" column: unchanged on a hit, the
next sheet row number appended on a miss. -/
theorem snos_update (sheet : List Row) (p : String) (f : Bool)
    (now : String) :
    (update_fresh_count sheet p f now).map Row.sNo =
      if p ∈ sheet.map Row.product then sheet.map Row.sNo
      else sheet.map Row.sNo ++ [sheet.length + 1] := by
  by_cases hp : p ∈ sheet.map Row.product
  · rw [if_pos hp]
    obtain ⟨r0, hr0, hr0p⟩ := List.mem_map.mp hp
    obtain ⟨l1, r, l2, hsplit, hrp, hfirst⟩ :=
      exists_first_split sheet p ⟨r0, hr0, hr0p⟩
    subst hsplit
    rw [update_fresh_count_found l1 l2 r p f now hfirst hrp]
    simp
  · rw [if_neg hp]
    have habs : ∀ r ∈ sheet, r.product ≠ p :=
      fun r hr hrp => hp (List.mem_map.mpr ⟨r, hr, hrp⟩)
    rw [update_fresh_count_absent sheet p f now habs]
    simp

/-- The upsert's effect on the sheet length: unchanged on a hit, one more
row on a miss. -/
theorem length_update (sheet : List Row) (p : String) (f : Bool)
    (now : String) :
    (update_fresh_count sheet p f now).length =
      if p ∈ sheet.map Row.product then sheet.length else sheet.length + 1 := by
  by_cases hp : p ∈ sheet.map Row.product
  · have h := congrArg List.length (products_update sheet p f now)
    rw [if_pos hp] at h
    simp only [List.length_map] at h
    rw [h, if_pos hp]
  · have h := congrArg List.length (products_update sheet p f now)
    rw [if_neg hp] at h
    simp only [List.length_map, List.length_append, List.length_singleton] at h
    rw [h, if_neg hp]

/-- Nodup of the "Product" column is preserved by the upsert. -/
theorem nodup_products_update (sheet : List Row) (p : String) (f : Bool)
    (now : String) (hnd : (sheet.map Row.product).Nodup) :
    ((update_fresh_count sheet p f now).map Row.product).Nodup := by
  rw [products_update]
  by_cases hp : p ∈ sheet.map Row.product
  · rwa [if_pos hp]
  · rw [if_neg hp]
    exact List.Nodup.append hnd (List.nodup_singleton p)
      (fun q hq hq' => hp ((List.mem_singleton.mp hq') ▸ hq))

/-- Membership in the "Product" column after an upsert. -/
theorem mem_products_update (sheet : List Row) (p q : String) (f : Bool)
    (now : String) :
    q ∈ (update_fresh_count sheet p f now).map Row.product ↔
      q ∈ sheet.map Row.product ∨ q = p := by
  rw [products_update]
  by_cases hp : p ∈ sheet.map Row.product
  · rw [if_pos hp]
    constructor
    · exact fun h => Or.inl h
    · rintro (h | rfl)
      · exact h
      · exact hp
  · rw [if_neg hp]
    simp

/-- C5: if each product appears in at most one row, it still does after
any single upsert, and the upsert never deletes a row. -/
theorem C5_at_most_one_row_per_product (sheet : List Row) (p : String)
    (f : Bool) (now : String) (hnd : (sheet.map Row.product).Nodup) :
    ((update_fresh_count sheet p f now).map Row.product).Nodup ∧
    sheet.length ≤ (update_fresh_count sheet p f now).length := by
  refine ⟨nodup_products_update sheet p f now hnd, ?_⟩
  rw [length_update]
  split <;> omega

/-- C5 witness. -/
theorem C5_at_most_one_row_per_product_witness :
    (([{ sNo := 1, product := "apple", freshCount := 1, lastDetectedTime := "t0", lifespan := Lifespan.na }] : List Row).map Row.product).Nodup ∧
    (((update_fresh_count [{ sNo := 1, product := "apple", freshCount := 1, lastDetectedTime := "t0", lifespan := Lifespan.na }] "tomato" false "t1").map Row.product).Nodup ∧
      ([{ sNo := 1, product := "apple", freshCount := 1, lastDetectedTime := "t0", lifespan := Lifespan.na }] : List Row).length ≤
        (update_fresh_count [{ sNo := 1, product := "apple", freshCount := 1, lastDetectedTime := "t0", lifespan := Lifespan.na }] "tomato" false "t1").length) :=
  ⟨by decide,
   C5_at_most_one_row_per_product
     [{ sNo := 1, product := "apple", freshCount := 1, lastDetectedTime := "t0", lifespan := Lifespan.na }]
     "tomato" false "t1" (by decide)⟩

/-- C7: a single upsert never lowers any row's freshCount, and it raises
one only on the row whose product is targeted by a fresh detection. -/
theorem C7_freshCount_monotone (sheet : List Row) (p : String) (f : Bool)
    (now : String) (i : Nat) (hi : i < sheet.length) :
    (sheet.getD i dummyRow).freshCount ≤
      ((update_fresh_count sheet p f now).getD i dummyRow).freshCount ∧
    ((sheet.getD i dummyRow).freshCount <
        ((update_fresh_count sheet p f now).getD i dummyRow).freshCount →
      (sheet.getD i dummyRow).product = p ∧ f = true) := by
  by_cases hp : ∃ r ∈ sheet, r.product = p
  · obtain ⟨l1, r, l2, hsplit, hrp, hfirst⟩ := exists_first_split sheet p hp
    subst hsplit
    rw [update_fresh_count_found l1 l2 r p f now hfirst hrp]
    by_cases hil : i = l1.length
    · subst hil
      rw [getD_middle l1 l2 r dummyRow,
        getD_middle l1 l2 { r with freshCount := if f then r.freshCount + 1 else r.freshCount, lastDetectedTime := now, lifespan := computeLifespan p f } dummyRow]
      cases f with
      | false => exact ⟨le_rfl, fun hlt => absurd hlt (lt_irrefl _)⟩
      | true => exact ⟨Nat.le_succ _, fun _ => ⟨hrp, rfl⟩⟩
    · rw [← getD_middle_ne l1 l2 r
        { r with freshCount := if f then r.freshCount + 1 else r.freshCount, lastDetectedTime := now, lifespan := computeLifespan p f } dummyRow i hil]
      exact ⟨le_rfl, fun hlt => absurd hlt (lt_irrefl _)⟩
  · push_neg at hp
    rw [update_fresh_count_absent sheet p f now hp]
    rw [List.getD_append sheet _ dummyRow i hi]
    exact ⟨le_rfl, fun hlt => absurd hlt (lt_irrefl _)⟩

/-- C7 witness. -/
theorem C7_freshCount_monotone_witness :
    (0 : Nat) < ([{ sNo := 1, product := "apple", freshCount := 3, lastDetectedTime := "t0", lifespan := Lifespan.na }] : List Row).length ∧
    (([{ sNo := 1, product := "apple", freshCount := 3, lastDetectedTime := "t0", lifespan := Lifespan.na }] : List Row).getD 0 dummyRow).freshCount ≤
      ((update_fresh_count [{ sNo := 1, product := "apple", freshCount := 3, lastDetectedTime := "t0", lifespan := Lifespan.na }] "apple" true "t1").getD 0 dummyRow).freshCount :=
  ⟨by decide,
   (C7_freshCount_monotone
     [{ sNo := 1, product := "apple", freshCount := 3, lastDetectedTime := "t0", lifespan := Lifespan.na }]
     "apple" true "t1" 0 (by decide)).1⟩

/-- `SeqOK` is preserved by a single upsert. -/
theorem seqOK_update (sheet : List Row) (p : String) (f : Bool)
    (now : String) (h : SeqOK sheet) : SeqOK (update_fresh_count sheet p f now) := by
  unfold SeqOK at h ⊢
  rw [snos_update, length_update]
  by_cases hp : p ∈ sheet.map Row.product
  · rw [if_pos hp, if_pos hp, h]
  · rw [if_neg hp, if_neg hp, h, List.range'_1_concat, Nat.add_comm 1 sheet.length]

/-- `applyOps` unfolds one call at a time. -/
theorem applyOps_cons (op : UpsertOp) (ops : List UpsertOp) (sheet : List Row) :
    applyOps (op :: ops) sheet =
      applyOps ops (update_fresh_count sheet op.product op.is_fresh op.now) := rfl

/-- `SeqOK` is preserved by any sequence of upserts. -/
theorem applyOps_seqOK (ops : List UpsertOp) (sheet : List Row)
    (h : SeqOK sheet) : SeqOK (applyOps ops sheet) := by
  induction ops generalizing sheet with
  | nil => exact h
  | cons op ops ih => exact ih _ (seqOK_update _ _ _ _ h)

/-- Nodup of the "Product" column is preserved by any sequence of
upserts. -/
theorem applyOps_nodup (ops : List UpsertOp) (sheet : List Row)
    (h : (sheet.map Row.product).Nodup) :
    ((applyOps ops sheet).map Row.product).Nodup := by
  induction ops generalizing sheet with
  | nil => exact h
  | cons op ops ih => exact ih _ (nodup_products_update _ _ _ _ h)

/-- The "Product" column after a sequence of upserts holds exactly the
initial products and the upserted ones. -/
theorem applyOps_mem (ops : List UpsertOp) (sheet : List Row) (q : String) :
    q ∈ (applyOps ops sheet).map Row.product ↔
      q ∈ sheet.map Row.product ∨ q ∈ ops.map UpsertOp.product := by
  induction ops generalizing sheet with
  | nil => simp [applyOps]
  | cons op ops ih =>
      rw [applyOps_cons, ih, mem_products_update]
      simp only [List.map_cons, List.mem_cons]
      tauto

/-- C10: starting from the empty ledger, after any sequence of upserts
the "S No" cells read exactly 1, 2, ..., n in row order, where n is the
number of distinct products upserted. -/
theorem C10_sequence_numbers (ops : List UpsertOp) :
    (applyOps ops []).map Row.sNo = List.range' 1 (applyOps ops []).length ∧
    (applyOps ops []).length = ((ops.map UpsertOp.product).dedup).length := by
  have hseq : SeqOK (applyOps ops []) := applyOps_seqOK ops [] rfl
  have hnd : ((applyOps ops []).map Row.product).Nodup :=
    applyOps_nodup ops [] List.nodup_nil
  have hmem : ∀ q, q ∈ (applyOps ops []).map Row.product ↔
      q ∈ (ops.map UpsertOp.product).dedup := by
    intro q
    rw [applyOps_mem ops [] q, List.mem_dedup]
    simp
  refine ⟨hseq, ?_⟩
  have hperm : List.Perm ((applyOps ops []).map Row.product)
      ((ops.map UpsertOp.product).dedup) :=
    (List.perm_ext_iff_of_nodup hnd (List.nodup_dedup _)).mpr hmem
  have hlen := hperm.length_eq
  rwa [List.length_map] at hlen

end Freshness
